import Mathlib

/-!
Verification of the pysword core (pysword/books.py, pysword/bible.py,
pysword/cleaner.py) against its natural-language specification.

The Python code is shallowly embedded: file contents are lists of byte
values (`List Nat`), decoded text is a list of Unicode code points
(`List Nat`), Python exceptions become an explicit error type `PyErr`
threaded through `Except`, and Python list indexing/slicing (including
negative indices) is modelled by `pyIndex` and `pySlice`.
-/

namespace Pysword

/-- Python `xs[i]` on a list of naturals: non-negative indices are direct,
negative indices count from the end; out of range is an `IndexError`
(modelled as `none`). -/
def pyIndex (xs : List Nat) (i : Int) : Option Nat :=
  if 0 ≤ i then xs[i.toNat]?
  else if (-i).toNat ≤ xs.length then xs[(xs.length - (-i).toNat)]? else none

/-- Python `xs[:i]` on a list of naturals: a non-negative stop takes a prefix,
a negative stop drops the last `-i` elements (clamped at zero). -/
def pySlice (xs : List Nat) (i : Int) : List Nat :=
  if 0 ≤ i then xs.take i.toNat else xs.take (xs.length - (-i).toNat)

/-- Little-endian unsigned integer read: `n` bytes of `bytes` starting at
offset `off` (models `struct.unpack` of `<I`/`<H` fields; all reachable reads
are guarded by the callers' size checks, so `getD` padding is never hit). -/
def readLE (bytes : List Nat) (off n : Nat) : Nat :=
  (List.range n).foldr (fun i acc => bytes.getD (off + i) 0 * 256 ^ i + acc) 0

/-- Decidable equality for `Except` results, so that concrete runs of the
embedded code can be checked by `decide`. -/
instance {ε α : Type} [DecidableEq ε] [DecidableEq α] : DecidableEq (Except ε α) :=
  fun a b =>
    match a, b with
    | .ok x, .ok y =>
      if h : x = y then .isTrue (by rw [h])
      else .isFalse (by intro hh; cases hh; exact h rfl)
    | .error x, .error y =>
      if h : x = y then .isTrue (by rw [h])
      else .isFalse (by intro hh; cases hh; exact h rfl)
    | .ok _, .error _ => .isFalse (by intro hh; cases hh)
    | .error _, .ok _ => .isFalse (by intro hh; cases hh)

/-- Python exceptions raised by the embedded code.  `chapterRange` and
`verseRange` are the two `ValueError`s of `BookStructure.get_indicies`
(the spec calls them `ChapterOutOfRange` / `VerseOutOfRange`),
`bookNotFound` is the `ValueError` of `BibleStructure.find_book`,
`indexErr` is a Python `IndexError`, `keyErr` a `KeyError`,
`typeErr` the `TypeError` of `'<' in text` on a bytes value,
`seekErr` the `ValueError` of a negative file seek, and
`notImplErr` a Python `NotImplementedError`. -/
inductive PyErr where
  | chapterRange
  | verseRange
  | bookNotFound
  | indexErr
  | keyErr
  | typeErr
  | seekErr
  | notImplErr
deriving DecidableEq, Repr

/-- A `chapters`/`verses` argument of `get_indicies`: Python `None`, a single
`int`, or a list of `int`s. -/
inductive PyParam where
  | noneP
  | intP (n : Int)
  | listP (l : List Int)
deriving DecidableEq, Repr

/-- The `books` argument of `ref_to_indicies`: Python `None`, a single
name string, or a list of name strings. -/
inductive PyBooks where
  | noneB
  | strB (s : String)
  | listB (l : List String)
deriving DecidableEq, Repr

/-- `BookStructure` of books.py: a book of the canon. `num_chapters` is
`len(chapter_lengths)` and is derived rather than stored. -/
structure Book where
  name : String
  osisName : String
  prefAbbrev : String
  chapterLengths : List Nat
deriving DecidableEq, Repr

/-- `BookStructure.num_chapters`. -/
def Book.numChapters (b : Book) : Nat := b.chapterLengths.length

/-- `BookStructure.size`: total verses plus one slot per chapter heading
plus one for the book title. -/
def Book.size (b : Book) : Nat :=
  b.chapterLengths.sum + b.chapterLengths.length + 1

/-- Python `str.lower` on one character, for the ASCII range the canonical
book names use: A-Z maps to a-z, all else is unchanged. -/
def lowerChar (c : Char) : Char :=
  if 'A' ≤ c ∧ c ≤ 'Z' then Char.ofNat (c.toNat + 32) else c

/-- Python `str.lower` for ASCII strings. -/
def lowerStr (s : String) : String := String.mk (s.data.map lowerChar)

/-- `BookStructure.name_matches`: case-insensitive match of `nm` against the
full name, the OSIS name and the preferred abbreviation. -/
def Book.matches (b : Book) (nm : String) : Bool :=
  let n := lowerStr nm
  n == lowerStr b.name || n == lowerStr b.osisName || n == lowerStr b.prefAbbrev

/-- `BookStructure.chapter_offset`: `sum(chapter_lengths[:chapter_index])
+ (chapter_index + 1) + 1`, with Python slice semantics for a possibly
negative `chapter_index`. -/
def chapterOffset (lengths : List Nat) (chapterIndex : Int) : Int :=
  ((pySlice lengths chapterIndex).sum : Int) + (chapterIndex + 1) + 1

/-- Python `list(range(1, n+1))` as a list of ints: `[1, 2, ..., n]`. -/
def oneTo (n : Nat) : List Int :=
  (List.range n).map (fun v : Nat => ((v : Int) + 1))

/-- Loop body of `BookStructure.get_indicies` over the resolved chapter list
`chs`, with the (already normalized) verse filter `vs`.  Mirrors the source
statement by statement: the upper-bound-only chapter check, the expansion of
`verses is None` via `chapter_lengths[chapter-1]`, the `tmp_verses[-1]` check
against `chapter_lengths[chapter-1]`, and the index formula
`offset + chapter_offset(chapter-1) + verse - 1`. -/
def giLoop (bk : Book) (vs : Option (List Int)) (offset : Int) :
    List Int → Except PyErr (List Int)
  | [] => .ok []
  | ch :: rest =>
    if ch > (bk.numChapters : Int) then .error .chapterRange
    else
      let tmpRes : Except PyErr (List Int) :=
        match vs with
        | none =>
          match pyIndex bk.chapterLengths (ch - 1) with
          | none => .error .indexErr
          | some len => .ok (oneTo len)
        | some l => .ok l
      match tmpRes with
      | .error e => .error e
      | .ok tmp =>
        match tmp.getLast? with
        | none => .error .indexErr
        | some lastV =>
          match pyIndex bk.chapterLengths (ch - 1) with
          | none => .error .indexErr
          | some len =>
            if lastV > (len : Int) then .error .verseRange
            else
              match giLoop bk vs offset rest with
              | .error e => .error e
              | .ok restRefs =>
                .ok ((tmp.map
                  (fun v => offset + chapterOffset bk.chapterLengths (ch - 1) + v - 1))
                  ++ restRefs)

/-- `BookStructure.get_indicies`: normalizes the `chapters` argument
(`None` expands to `1..num_chapters`, an `int` becomes a singleton), drops
the verse filter unless exactly one chapter is selected (an `int` verse
becomes a singleton only in the single-chapter case), then runs the loop. -/
def getIndicies (bk : Book) (chapters verses : PyParam) (offset : Int) :
    Except PyErr (List Int) :=
  let chs : List Int :=
    match chapters with
    | .noneP => oneTo bk.numChapters
    | .intP c => [c]
    | .listP l => l
  let vs : Option (List Int) :=
    if chs.length ≠ 1 then none
    else
      match verses with
      | .noneP => none
      | .intP v => some [v]
      | .listP l => some l
  giLoop bk vs offset chs

/-- Testament keys of the `_books` / `_testaments` dictionaries. -/
inductive TKey where
  | ot
  | nt
deriving DecidableEq, Repr

/-- `BibleStructure.find_book`: lowercase the query, then scan the 'ot' book
list followed by the 'nt' book list for the first `name_matches` hit. -/
def findBook (otB ntB : List Book) (nm : String) : Option (TKey × Book) :=
  let n := lowerStr nm
  match otB.find? (fun b => b.matches n) with
  | some b => some (.ot, b)
  | none =>
    match ntB.find? (fun b => b.matches n) with
    | some b => some (.nt, b)
    | none => none

/-- One testament's contribution to `_update_book_offsets`: each book is
assigned the running index (starting at 2, after the testament heading) and
the index advances by `book.size`. -/
def offsetsFor : List Book → Int → List (String × Int)
  | [], _ => []
  | b :: bs, idx => (b.name, idx) :: offsetsFor bs (idx + (b.size : Int))

/-- The `_book_offsets` dictionary: 'ot' entries then 'nt' entries, each
testament restarting at index 2. -/
def bookOffsetTable (otB ntB : List Book) : List (String × Int) :=
  offsetsFor otB 2 ++ offsetsFor ntB 2

/-- `BibleStructure._book_offset`: dictionary lookup; a later assignment to
the same name key overwrites an earlier one, hence the reversed search. -/
def bookOffset (otB ntB : List Book) (nm : String) : Option Int :=
  ((bookOffsetTable otB ntB).reverse.find? (fun p => p.1 == nm)).map (·.2)

/-- Loop of `BibleStructure.ref_to_indicies` over the resolved book-name
list: look each name up with `find_book` (a miss is the `ValueError` of
`find_book`), fetch the found book's offset from the `_book_offsets`
dictionary, delegate to `get_indicies`, and extend the per-testament result
lists in encounter order. -/
def rtiLoop (otB ntB : List Book) (chapters verses : PyParam) :
    List String → Except PyErr (List Int × List Int)
  | [] => .ok ([], [])
  | nm :: rest =>
    match findBook otB ntB nm with
    | none => .error .bookNotFound
    | some (t, bk) =>
      match bookOffset otB ntB bk.name with
      | none => .error .keyErr
      | some off =>
        match getIndicies bk chapters verses off with
        | .error e => .error e
        | .ok idxs =>
          match rtiLoop otB ntB chapters verses rest with
          | .error e => .error e
          | .ok (o, n) =>
            .ok (match t with
                 | .ot => (idxs ++ o, n)
                 | .nt => (o, idxs ++ n))

/-- `BibleStructure.ref_to_indicies`: `books = None` expands to all book
names, 'ot' section first then 'nt' (dictionary insertion order); a single
string becomes a singleton list.  The result dictionary is modelled as the
pair (refs for 'ot', refs for 'nt'). -/
def refToIndicies (otB ntB : List Book) (books : PyBooks)
    (chapters verses : PyParam) : Except PyErr (List Int × List Int) :=
  let names : List String :=
    match books with
    | .noneB => otB.map (·.name) ++ ntB.map (·.name)
    | .strB s => [s]
    | .listB l => l
  rtiLoop otB ntB chapters verses names

/-! Embedding of bible.py: encodings, the raw-text module and the
compressed (ztext) module. -/

/-- The two encodings reachable in `SwordBible._decode_bytes` for a module
with no declared encoding: strict UTF-8 auto-detection, and the cp1252
fallback the method pins `_encoding` to. -/
inductive PyEncoding where
  | utf8E
  | cp1252E
deriving DecidableEq, Repr

/-- Parse one UTF-8 scalar value from the head of a byte list: the code
point and the remaining bytes, or `none` on a malformed head (truncated
sequence, stray continuation byte, overlong form, surrogate, or a value
above U+10FFFF).  A successful parse consumes at least one byte. -/
def utf8One : List Nat → Option (Nat × List Nat)
  | [] => none
  | b :: rest =>
    if b ≤ 0x7F then some (b, rest)
    else if 0xC2 ≤ b ∧ b ≤ 0xDF then
      match rest with
      | b2 :: r2 =>
        if 0x80 ≤ b2 ∧ b2 ≤ 0xBF then
          some ((b - 0xC0) * 64 + (b2 - 0x80), r2)
        else none
      | [] => none
    else if 0xE0 ≤ b ∧ b ≤ 0xEF then
      match rest with
      | b2 :: b3 :: r3 =>
        let lo2 := if b = 0xE0 then 0xA0 else 0x80
        let hi2 := if b = 0xED then 0x9F else 0xBF
        if (lo2 ≤ b2 ∧ b2 ≤ hi2) ∧ (0x80 ≤ b3 ∧ b3 ≤ 0xBF) then
          some ((b - 0xE0) * 4096 + (b2 - 0x80) * 64 + (b3 - 0x80), r3)
        else none
      | _ => none
    else if 0xF0 ≤ b ∧ b ≤ 0xF4 then
      match rest with
      | b2 :: b3 :: b4 :: r4 =>
        let lo2 := if b = 0xF0 then 0x90 else 0x80
        let hi2 := if b = 0xF4 then 0x8F else 0xBF
        if (lo2 ≤ b2 ∧ b2 ≤ hi2) ∧ (0x80 ≤ b3 ∧ b3 ≤ 0xBF) ∧
            (0x80 ≤ b4 ∧ b4 ≤ 0xBF) then
          some ((b - 0xF0) * 262144 + (b2 - 0x80) * 4096 + (b3 - 0x80) * 64
            + (b4 - 0x80), r4)
        else none
      | _ => none
    else none

/-- Fueled strict UTF-8 decoding loop.  Each step consumes at least one
byte, so with fuel exceeding the byte count the out-of-fuel branch is
unreachable. -/
def utf8DecodeF : Nat → List Nat → Option (List Nat)
  | 0, _ => none
  | _ + 1, [] => some []
  | fuel + 1, b :: rest =>
    match utf8One (b :: rest) with
    | some (cp, r) => (utf8DecodeF fuel r).map (cp :: ·)
    | none => none

/-- Strict UTF-8 decoding of a byte list into Unicode code points (models
`bytes.decode('utf-8', 'strict')`). -/
def utf8Decode (bs : List Nat) : Option (List Nat) :=
  utf8DecodeF (bs.length + 1) bs

/-- Fueled UTF-8 decoding loop with the `'replace'` error handler: a valid
sequence is decoded, any rejected byte is consumed singly and replaced by
U+FFFD.  Fuel exceeding the byte count makes the out-of-fuel branch
unreachable. -/
def utf8ReplaceF : Nat → List Nat → List Nat
  | 0, _ => []
  | _ + 1, [] => []
  | fuel + 1, b :: rest =>
    match utf8One (b :: rest) with
    | some (cp, r) => cp :: utf8ReplaceF fuel r
    | none => 0xFFFD :: utf8ReplaceF fuel rest

/-- UTF-8 decoding with the `'replace'` error handler (models
`bytes.decode('utf-8', 'replace')`, with one U+FFFD per rejected byte). -/
def utf8Replace (bs : List Nat) : List Nat :=
  utf8ReplaceF (bs.length + 1) bs

/-- One byte of the cp1252 codec (models `bytes.decode('cp1252', 'replace')`
per byte): 0x00–0x7F and 0xA0–0xFF map to themselves, 0x80–0x9F use the
Windows-1252 table, and the five unassigned bytes become U+FFFD. -/
def cp1252Char (b : Nat) : Nat :=
  if b = 0x80 then 0x20AC
  else if b = 0x82 then 0x201A
  else if b = 0x83 then 0x0192
  else if b = 0x84 then 0x201E
  else if b = 0x85 then 0x2026
  else if b = 0x86 then 0x2020
  else if b = 0x87 then 0x2021
  else if b = 0x88 then 0x02C6
  else if b = 0x89 then 0x2030
  else if b = 0x8A then 0x0160
  else if b = 0x8B then 0x2039
  else if b = 0x8C then 0x0152
  else if b = 0x8E then 0x017D
  else if b = 0x91 then 0x2018
  else if b = 0x92 then 0x2019
  else if b = 0x93 then 0x201C
  else if b = 0x94 then 0x201D
  else if b = 0x95 then 0x2022
  else if b = 0x96 then 0x2013
  else if b = 0x97 then 0x2014
  else if b = 0x98 then 0x02DC
  else if b = 0x99 then 0x2122
  else if b = 0x9A then 0x0161
  else if b = 0x9B then 0x203A
  else if b = 0x9C then 0x0153
  else if b = 0x9E then 0x017E
  else if b = 0x9F then 0x0178
  else if b = 0x81 ∨ b = 0x8D ∨ b = 0x8F ∨ b = 0x90 ∨ b = 0x9D then 0xFFFD
  else b

/-- `byte_data.decode(self._encoding, 'replace')` for the two modelled
encodings. -/
def pyDecodeReplace : PyEncoding → List Nat → List Nat
  | .utf8E, bs => utf8Replace bs
  | .cp1252E, bs => bs.map cp1252Char

/-- `SwordBible._decode_bytes`: with no encoding set, try strict UTF-8; on
failure pin `_encoding` to cp1252 and redo the decode with `'replace'`; with
an encoding set, decode with `'replace'` directly.  Returns the new value of
`_encoding`, the decoded text, and whether strict UTF-8 detection was
attempted during this call (it is attempted exactly when `_encoding` was
unset on entry). -/
def decodeBytes : Option PyEncoding → List Nat →
    Option PyEncoding × List Nat × Bool
  | none, b =>
    match utf8Decode b with
    | some t => (none, t, true)
    | none => (some .cp1252E, pyDecodeReplace .cp1252E b, true)
  | some e, b => (some e, pyDecodeReplace e b, false)

/-- A sequence of `_decode_bytes` calls on one module, threading the
module's sticky `_encoding` state; yields each call's decoded text and
whether that call attempted UTF-8 detection. -/
def decodeBytesSeq : Option PyEncoding → List (List Nat) →
    Option PyEncoding × List (List Nat × Bool)
  | e, [] => (e, [])
  | e, b :: bs =>
    let (e1, t, f) := decodeBytes e b
    let (e2, rest) := decodeBytesSeq e1 bs
    (e2, (t, f) :: rest)

/-- A Python value yielded by `get_iter` or returned by `_text_for_index`:
`None`, a text string (code points), or a bytes value. -/
inductive PyVal where
  | pnone
  | pstr (s : List Nat)
  | pbytes (b : List Nat)
deriving DecidableEq, Repr

/-- One testament of a raw-text module: the verse-to-location index file
(`ot.vss`/`nt.vss`) and the text file, as byte lists.  The recorded
`v2l_size`/`text_size` attributes equal the files' lengths. -/
structure RawTestament where
  v2l : List Nat
  text : List Nat
deriving DecidableEq, Repr

/-- `RawTextModule._text_for_index` (record size 6, format `<IH`): returns
`u''` when the index record would lie past the index file, `b''` when the
record points past the text file, otherwise the decoded verse bytes.  A
negative index passes the first size check and then fails at
`verse_to_loc.seek` (negative seeks raise), modelled as `seekErr`; no other
branch can raise. -/
def textForIndexRaw (t : RawTestament) (index : Int) (enc : Option PyEncoding) :
    Except PyErr (PyVal × Option PyEncoding) :=
  if 6 * (index + 1) > (t.v2l.length : Int) then .ok (.pstr [], enc)
  else if index < 0 then .error .seekErr
  else
    let verseStart := readLE t.v2l (6 * index.toNat) 4
    let verseLen := readLE t.v2l (6 * index.toNat + 4) 2
    if verseStart + verseLen > t.text.length then .ok (.pbytes [], enc)
    else
      let dec := decodeBytes enc ((t.text.drop verseStart).take verseLen)
      .ok (.pstr dec.2.1, dec.1)

/-- A raw-text `SwordBible` with both testaments loaded: per-testament file
data, the `BibleStructure` book lists, and the sticky `_encoding` state. -/
structure RawModule where
  otT : RawTestament
  ntT : RawTestament
  otBooks : List Book
  ntBooks : List Book
  enc : Option PyEncoding
deriving Repr

/-- Body of `get_iter` for one yielded value: the source skips the value
only when it `is None`; otherwise, when `clean` is requested (the module's
`_cleaner` is always set), `'<' in text` is evaluated — a `TypeError` on a
bytes value — and the cleaner (abstracted as `cleanFn`) runs only when a
`'<'` (code point 60) is present. -/
def cleanStep (cleanFn : List Nat → List Nat) (clean : Bool) :
    PyVal → Except PyErr PyVal
  | .pstr s => .ok (.pstr (if clean && s.contains 60 then cleanFn s else s))
  | .pbytes b => if clean then .error .typeErr else .ok (.pbytes b)
  | .pnone => .ok .pnone

/-- The inner loop of `get_iter` over one testament's resolved indices:
fetch each verse with `_text_for_index` (threading the sticky encoding
state), `continue` on `None`, then apply the cleaning step and yield. -/
def processTestament (t : RawTestament) (cleanFn : List Nat → List Nat)
    (clean : Bool) (enc : Option PyEncoding) :
    List Int → Except PyErr (List PyVal × Option PyEncoding)
  | [] => .ok ([], enc)
  | i :: rest =>
    match textForIndexRaw t i enc with
    | .error e => .error e
    | .ok (v, e1) =>
      if v = .pnone then processTestament t cleanFn clean e1 rest
      else
        match cleanStep cleanFn clean v with
        | .error e => .error e
        | .ok item =>
          match processTestament t cleanFn clean e1 rest with
          | .error e => .error e
          | .ok (vs, e2) => .ok (item :: vs, e2)

/-- `SwordBible.get_iter` for a raw-text module: resolve the reference to
per-testament index lists, then stream the 'ot' indices followed by the
'nt' indices (the testament dictionary's insertion order), collecting the
yielded values. -/
def getIterRaw (m : RawModule) (cleanFn : List Nat → List Nat) (clean : Bool)
    (books : PyBooks) (chapters verses : PyParam) : Except PyErr (List PyVal) :=
  match refToIndicies m.otBooks m.ntBooks books chapters verses with
  | .error e => .error e
  | .ok (otR, ntR) =>
    match processTestament m.otT cleanFn clean m.enc otR with
    | .error e => .error e
    | .ok (ys1, e1) =>
      match processTestament m.ntT cleanFn clean e1 ntR with
      | .error e => .error e
      | .ok (ys2, _) => .ok (ys1 ++ ys2)

/-- `CompressType` of bible.py. -/
inductive CompressType where
  | zip
  | bzip2
  | xz
  | lzss
deriving DecidableEq, Repr

/-- One testament of a ztext module: verse-to-buffer index file, the
buffer-to-location file, and the compressed text file, as byte lists. -/
structure ZTestament where
  v2b : List Nat
  b2l : List Nat
  text : List Nat
deriving DecidableEq, Repr

/-- `ZTextModule._decompressed_text`, parametrized by the result of
`zlib.decompress` (`zlibDec bs = none` models `zlib.error`): size-check the
12-byte block-location record, unpack `<III` (offset, compressed size,
uncompressed size — the last is read but unused), size-check the compressed
span against the text file, then decompress with zlib unconditionally —
the configured compression type is never consulted, and a zlib failure
yields `b''`. -/
def decompressedText (zlibDec : List Nat → Option (List Nat))
    (t : ZTestament) (bufNum : Nat) : List Nat :=
  if (bufNum + 1) * 12 > t.b2l.length then []
  else
    let offset := readLE t.b2l (bufNum * 12) 4
    let size := readLE t.b2l (bufNum * 12 + 4) 4
    if offset + size > t.text.length then []
    else
      match zlibDec ((t.text.drop offset).take size) with
      | some d => d
      | none => []

/-- `ZTextModule._text_for_index` (record size 10, format `<IIH`): size-check
the verse record, unpack (buffer number, start, length), resolve the
decompressed buffer via `_decompressed_text`, slice it (Python slicing never
raises), and decode.  As in the raw case a negative index only fails at the
seek. -/
def textForIndexZ (zlibDec : List Nat → Option (List Nat)) (t : ZTestament)
    (index : Int) (enc : Option PyEncoding) :
    Except PyErr (PyVal × Option PyEncoding) :=
  if 10 * (index + 1) > (t.v2b.length : Int) then .ok (.pstr [], enc)
  else if index < 0 then .error .seekErr
  else
    let bufNum := readLE t.v2b (10 * index.toNat) 4
    let verseStart := readLE t.v2b (10 * index.toNat + 4) 4
    let verseLen := readLE t.v2b (10 * index.toNat + 8) 2
    let d := decompressedText zlibDec t bufNum
    let dec := decodeBytes enc ((d.drop verseStart).take verseLen)
    .ok (.pstr dec.2.1, dec.1)

/-- `ZTextModule._decompress`, parametrized by the stdlib decompressors
(`none` models the library raising): zlib/bz2/lzma failures are swallowed to
`b''`, while `CompressType.LZSS` raises `NotImplementedError`.  (No caller
in bible.py invokes this method; the verse path uses `_decompressed_text`.) -/
def pyDecompress (ct : CompressType)
    (zlibDec bz2Dec lzmaDec : List Nat → Option (List Nat))
    (data : List Nat) : Except PyErr (List Nat) :=
  match ct with
  | .zip => .ok ((zlibDec data).getD [])
  | .bzip2 => .ok ((bz2Dec data).getD [])
  | .xz => .ok ((lzmaDec data).getD [])
  | .lzss => .error .notImplErr

/-! Embedding of cleaner.py (GBF): the regex dialect used by
`GBFCleaner.__setup` needs only literal characters, `.` and non-greedy
`.*?`, so patterns are token lists and `re.sub(pattern, '', text)` is a
left-to-right scan deleting each leftmost match. -/

/-- One token of a compiled GBF pattern: a literal character, `.` (any
single character except newline), or non-greedy `.*?` (shortest run of
non-newline characters letting the remaining tokens match). -/
inductive RTok where
  | chTok (c : Char)
  | anyOne
  | lazyStar
deriving DecidableEq, Repr

/-- Fueled matcher for a token list against a text suffix, returning the
remainder after the match (leftmost-shortest semantics for `lazyStar`, per
Python `re`).  `.` and `.*?` do not cross a newline (no `re.DOTALL` is
passed).  Every recursive call strictly decreases `tokens.length +
text.length`, so with fuel exceeding that sum the out-of-fuel branch is
unreachable. -/
def matchToksF : Nat → List RTok → List Char → Option (List Char)
  | 0, _, _ => none
  | _ + 1, [], s => some s
  | _ + 1, .chTok _ :: _, [] => none
  | fuel + 1, .chTok c :: ts, c2 :: s =>
    if c = c2 then matchToksF fuel ts s else none
  | _ + 1, .anyOne :: _, [] => none
  | fuel + 1, .anyOne :: ts, c :: s =>
    if c = '\n' then none else matchToksF fuel ts s
  | fuel + 1, .lazyStar :: ts, s =>
    match matchToksF fuel ts s with
    | some r => some r
    | none =>
      match s with
      | [] => none
      | c :: s2 =>
        if c = '\n' then none else matchToksF fuel (.lazyStar :: ts) s2

/-- Match a token list at the start of a text suffix (regex anchored at
this position), returning the remainder after the leftmost-shortest
match. -/
def matchToks (ts : List RTok) (s : List Char) : Option (List Char) :=
  matchToksF (ts.length + s.length + 1) ts s

/-- Fueled scan of `regex.sub(u'', text)`: at each position delete the
leftmost match and resume after it, otherwise keep the character.  (The
inner length guard only totalizes the recursion; every GBF pattern starts
with the literal `<`, so a match always consumes at least one character and
the guard is never false.)  Fuel exceeding the text length makes the
out-of-fuel branch unreachable. -/
def gsubF : Nat → List RTok → List Char → List Char
  | 0, _, _ => []
  | _ + 1, _, [] => []
  | fuel + 1, p, c :: s2 =>
    match matchToks p (c :: s2) with
    | some r =>
      if r.length < (c :: s2).length then gsubF fuel p r
      else c :: gsubF fuel p s2
    | none => c :: gsubF fuel p s2

/-- `regex.sub(u'', text)` for one compiled GBF pattern. -/
def gsub (p : List RTok) (s : List Char) : List Char :=
  gsubF (s.length + 1) p s

/-- Whether a pattern matches at any position of the text (i.e. whether
`regex.sub` would change it). -/
def hasMatch (p : List RTok) : List Char → Bool
  | [] => (matchToks p []).isSome
  | c :: s => (matchToks p (c :: s)).isSome || hasMatch p s

/-- Compile a string into literal tokens. -/
def litToks (s : String) : List RTok := s.toList.map RTok.chTok

/-- A paired-code pattern `open.*?close` (e.g. `<TB>.*?<Tb>`). -/
def spanPat (a b : String) : List RTok :=
  litToks a ++ [RTok.lazyStar] ++ litToks b

/-- An open-ended single-code pattern `head.*?>` (e.g. `<RP.*?>`). -/
def openPat (a : String) : List RTok :=
  litToks a ++ [RTok.lazyStar] ++ litToks (">")

/-- A single-character-code pattern `head.>` (e.g. `<P.>`). -/
def dotPat (a : String) : List RTok :=
  litToks a ++ [RTok.anyOne] ++ litToks (">")

/-- The compiled pattern list of `GBFCleaner.__setup`, in source order.
The footnote pattern `<FN.*?>.*?<fn>` carries two non-greedy gaps. -/
def gbfPatterns : List (List RTok) :=
  [spanPat ("<TB>") ("<Tb>"), spanPat ("<TC>") ("<Tc>"),
   spanPat ("<TH>") ("<Th>"), spanPat ("<TS>") ("<Ts>"),
   spanPat ("<TT>") ("<Tt>"), spanPat ("<TN>") ("<Tn>"),
   spanPat ("<TA>") ("<Ta>"), spanPat ("<TP>") ("<Tp>"),
   spanPat ("<FB>") ("<fb>"), spanPat ("<FC>") ("<fc>"),
   spanPat ("<FI>") ("<fi>"),
   litToks ("<FN") ++ [RTok.lazyStar] ++ litToks (">") ++ [RTok.lazyStar]
     ++ litToks ("<fn>"),
   spanPat ("<FO>") ("<fo>"), spanPat ("<FR>") ("<fr>"),
   spanPat ("<FS>") ("<fs>"), spanPat ("<FU>") ("<fu>"),
   spanPat ("<FV>") ("<fv>"), spanPat ("<RF>") ("<Rf>"),
   litToks ("<RB>"), openPat ("<RP"), openPat ("<Rp"),
   openPat ("<RX"), openPat ("<Rx"),
   openPat ("<H"), openPat ("<B"), litToks ("<ZZ>"),
   openPat ("<D"), openPat ("<J"), dotPat ("<P"),
   openPat ("<W"), openPat ("<S"), openPat ("<N"), dotPat ("<C")]

/-- `GBFCleaner.clean`: apply each compiled pattern's substitution in
order. -/
def gbfClean (s : List Char) : List Char :=
  gbfPatterns.foldl (fun t p => gsub p t) s

/-! Auxiliary definitions used only in theorem statements. -/

/-- The chapter-offset formula exactly as claim C3 words it (sum of the
chapter lengths strictly before chapter `c`, plus one per preceding chapter
heading, plus one for the book heading): `Σ(chapter_lengths[0..c]) + c + 1`.
Stated from the spec's words, to be compared with `chapterOffset`, which is
translated from the source. -/
def specChapterOffset (lengths : List Nat) (c : Nat) : Int :=
  ((lengths.take c).sum : Int) + c + 1

/-- The verse count `chapter_lengths[ch-1]` of 1-based chapter `ch`
(defaulting to 0 where Python would raise). -/
def chLen (bk : Book) (ch : Int) : Nat :=
  (pyIndex bk.chapterLengths (ch - 1)).getD 0

/-- The indices `get_indicies` produces for every verse of 1-based chapter
`ch` of a book at `offset`: `offset + chapter_offset(ch-1) + verse - 1` for
`verse = 1 .. chapter_lengths[ch-1]`. -/
def chapterBlock (bk : Book) (offset : Int) (ch : Int) : List Int :=
  (List.range (chLen bk ch)).map
    (fun v : Nat => offset + chapterOffset bk.chapterLengths (ch - 1) + (v : Int))

/-- The indices `get_indicies` produces for a whole book at `offset`
(all chapters, all verses). -/
def bookFull (bk : Book) (offset : Int) : List Int :=
  ((List.range bk.numChapters).map
    (fun c : Nat => chapterBlock bk offset ((c : Int) + 1))).flatten

/-- The per-testament index sequence of `ref_to_indicies` with no
selectors: each book's full expansion at the running offset that starts at
2 and advances by `book.size`, in canon order. -/
def booksFull : List Book → Int → List Int
  | [], _ => []
  | b :: bs, off => bookFull b off ++ booksFull bs (off + (b.size : Int))

/-- The books of `bs` have their `_book_offsets` dictionary entries at the
running offsets starting from `s` (each book at `s` plus the sizes of the
books before it). -/
def OffsetsOK (otB ntB : List Book) : List Book → Int → Prop
  | [], _ => True
  | b :: bs, s =>
    bookOffset otB ntB b.name = some s ∧ OffsetsOK otB ntB bs (s + (b.size : Int))

/-- Modelled from the spec: the canon table itself (pysword/canons.py) is
not among the source files, so its invariants are taken from the spec's
data model — every book has a unique name within its canon (hence looking a
book's own name up with `find_book` returns that very book), and every
chapter's entry in `chapter_lengths` is that chapter's verse count (at
least 1). -/
def CanonOK (otB ntB : List Book) : Prop :=
  ((otB ++ ntB).map (·.name)).Nodup ∧
  (∀ b ∈ otB ++ ntB, ∀ l ∈ b.chapterLengths, 1 ≤ l) ∧
  (∀ b ∈ otB, findBook otB ntB b.name = some (.ot, b)) ∧
  (∀ b ∈ ntB, findBook otB ntB b.name = some (.nt, b))

/-- A one-chapter, three-verse book (concrete test data). -/
def demoBook3 : Book := ⟨"Demo", "Dem", "De", [3]⟩

/-- A one-chapter, two-verse book (concrete test data). -/
def demoBookG : Book := ⟨"Genesis", "Gen", "Ge", [2]⟩

/-- A one-chapter, five-verse book (concrete test data). -/
def demoBook5 : Book := ⟨"Solo", "Sol", "So", [5]⟩

/-- A two-chapter book with 2 and 3 verses (concrete test data). -/
def demoBook2 : Book := ⟨"Exodus", "Exod", "Ex", [2, 3]⟩

/-- A raw module whose index and text files are empty: every resolved index
fails the first size check of `_text_for_index` and resolves to `u''`. -/
def demoRawModule : RawModule := ⟨⟨[], []⟩, ⟨[], []⟩, [demoBookG], [], none⟩

/-- A raw testament whose single index record is `(start=3, length=9)`
while the text file has only 3 bytes — the record points past the end. -/
def demoRawT : RawTestament := ⟨[3, 0, 0, 0, 9, 0], [1, 2, 3]⟩

/-- A ztext testament with one verse record `(block=0, start=0, length=5)`
and one block-location record `(offset=0, size=2, uc_size=9)` over a 2-byte
text file, so that a lookup of index 0 reaches decompression. -/
def demoZT : ZTestament :=
  ⟨[0, 0, 0, 0, 0, 0, 0, 0, 5, 0],
   [0, 0, 0, 0, 2, 0, 0, 0, 9, 0, 0, 0],
   [1, 2]⟩

/-! Helper lemmas (shared), then one theorem per claim. -/

theorem chapterOffset_natCast (L : List Nat) (c : Nat) :
    chapterOffset L (c : Int) = ((L.take c).sum : Int) + c + 2 := by
  unfold chapterOffset pySlice
  rw [if_pos (by positivity : (0 : Int) ≤ (c : Int))]
  simp
  ring

/-- C3: the claim's formula `chapter_offset(c) = Σ(chapter_lengths[0..c]) +
c + 1` disagrees with the code at the one-chapter book `[3]` and `c = 0`:
the code yields 2 (as the spec's own regression pin `chapter_offset(0) == 2`
demands), the claim's formula yields 1 (and the inclusive reading of its
sum yields 4). -/
theorem C3_chapter_offset_formula_counterexample :
    chapterOffset [3] 0 = 2 ∧ specChapterOffset [3] 0 = 1 ∧
    ((([3] : List Nat).take 1).sum : Int) + 0 + 1 = 4 := by decide

/-- C3 (amended): for every book and 0-based chapter index `c`,
`chapter_offset(c)` equals the sum of the chapter lengths strictly before
chapter `c`, plus one slot per chapter heading up to and including chapter
`c` (that is `c + 1` of them), plus one for the book heading:
`Σ(chapter_lengths[0..c)) + c + 2`. -/
theorem C3_chapter_offset_formula (L : List Nat) (c : Nat) :
    chapterOffset L (c : Int) = ((L.take c).sum : Int) + (c + 1) + 1 := by
  rw [chapterOffset_natCast]; ring

/-- C6: in `RawTextModule._text_for_index`, whenever the decoded index
record's verse start plus verse length exceeds the text file's size, the
lookup returns empty content (`b''`) without touching the decoder, leaves
the module's encoding state unchanged, and raises no error (the function's
only error case is a negative seek, excluded by a natural index). -/
theorem C6_raw_record_past_text_returns_empty (t : RawTestament) (i : Nat)
    (enc : Option PyEncoding)
    (h1 : 6 * (i + 1) ≤ t.v2l.length)
    (h2 : readLE t.v2l (6 * i) 4 + readLE t.v2l (6 * i + 4) 2 > t.text.length) :
    textForIndexRaw t (i : Int) enc = .ok (.pbytes [], enc) := by
  unfold textForIndexRaw
  rw [if_neg (by omega), if_neg (by omega)]
  simp only [Int.toNat_natCast]
  rw [if_pos h2]

theorem C6_raw_record_past_text_returns_empty_witness :
    (6 * (0 + 1) ≤ demoRawT.v2l.length ∧
      readLE demoRawT.v2l 0 4 + readLE demoRawT.v2l 4 2 > demoRawT.text.length) ∧
    textForIndexRaw demoRawT ((0 : Nat) : Int) none = .ok (.pbytes [], none) :=
  ⟨by decide, C6_raw_record_past_text_returns_empty demoRawT 0 none (by decide)
    (by decide)⟩

/-- C8: for a module with no declared encoding, a `_decode_bytes` call whose
input fails strict UTF-8 pins `_encoding` to cp1252 and redoes that very
decode with replace semantics, and every subsequent call — whatever its
input — decodes with cp1252/replace without ever attempting UTF-8 detection
again (the attempted-UTF-8 flag of each later call is `false`). -/
theorem C8_encoding_fallback_is_sticky (b : List Nat) (bs : List (List Nat))
    (hfail : utf8Decode b = none) :
    decodeBytes none b = (some .cp1252E, pyDecodeReplace .cp1252E b, true) ∧
    decodeBytesSeq (some .cp1252E) bs =
      (some .cp1252E, bs.map (fun x => (pyDecodeReplace .cp1252E x, false))) := by
  constructor
  · simp [decodeBytes, hfail]
  · induction bs with
    | nil => simp [decodeBytesSeq]
    | cons x xs ih => simp [decodeBytesSeq, decodeBytes, ih]

theorem C8_encoding_fallback_is_sticky_witness :
    (utf8Decode [255] = none ∧
      pyDecodeReplace .cp1252E [255] = [255] ∧
      pyDecodeReplace .cp1252E [65] = [65]) ∧
    (decodeBytes none [255] = (some .cp1252E, pyDecodeReplace .cp1252E [255], true) ∧
      decodeBytesSeq (some .cp1252E) [[65], [255]] =
        (some .cp1252E,
          [[65], [255]].map (fun x => (pyDecodeReplace .cp1252E x, false)))) :=
  ⟨by decide, C8_encoding_fallback_is_sticky [255] [[65], [255]] (by decide)⟩

/-- C2: contrary to the claim, an LZSS-configured compressed module's verse
lookup does not raise `NotImplementedError`: `_text_for_index` resolves
blocks through `_decompressed_text`, which decompresses with zlib
unconditionally and maps failure to `b''`, so no lookup can surface
`NotImplementedError` (first conjunct); on concrete data that reaches
decompression the lookup silently returns empty text (second conjunct).
The `NotImplementedError` for LZSS lives only in `_decompress` (third
conjunct), a method nothing in bible.py calls. -/
theorem C2_lzss_lookup_never_raises_not_implemented :
    (∀ zd t i e, textForIndexZ zd t i e ≠ .error .notImplErr) ∧
    textForIndexZ (fun _ => none) demoZT 0 none = .ok (.pstr [], none) ∧
    (∀ zd bz lz data,
      pyDecompress .lzss zd bz lz data = .error .notImplErr) := by
  refine ⟨?_, by decide, fun _ _ _ _ => rfl⟩
  intro zd t i e h
  unfold textForIndexZ at h
  split at h
  · exact absurd h (by simp)
  · split at h
    · exact absurd h (by simp)
    · exact absurd h (by simp)

theorem gsubF_of_no_match (p : List RTok) :
    ∀ (fuel : Nat) (s : List Char), s.length < fuel → hasMatch p s = false →
      gsubF fuel p s = s := by
  intro fuel
  induction fuel with
  | zero => intro s h _; exact absurd h (by omega)
  | succ n ih =>
    intro s hlen hnm
    cases s with
    | nil => rfl
    | cons c s2 =>
      have h1 : (matchToks p (c :: s2)).isSome = false ∧ hasMatch p s2 = false := by
        simpa [hasMatch] using hnm
      simp only [gsubF]
      cases hm : matchToks p (c :: s2) with
      | some r => simp [hm] at h1
      | none =>
        have : s2.length < n := by simpa using hlen
        rw [ih s2 this h1.2]

theorem foldl_gsub_of_no_match (ps : List (List RTok)) (s : List Char)
    (h : ∀ p ∈ ps, hasMatch p s = false) :
    ps.foldl (fun t p => gsub p t) s = s := by
  induction ps with
  | nil => rfl
  | cons p ps ih =>
    have h1 : gsub p s = s := by
      unfold gsub
      exact gsubF_of_no_match p (s.length + 1) s (by omega) (h p (by simp))
    simp only [List.foldl_cons, h1]
    exact ih (fun q hq => h q (by simp [hq]))

/-- C9: the claim fails as universally stated: the unknown bracket code
`<XY>` is matched by none of the enumerated GBF patterns (first conjunct),
yet cleaning `<TB>x<XY>y<Tb>` deletes it — the whole title-block span,
unknown code included, is removed, so an out-of-set bracketed code is not
left untouched in the output. -/
theorem C9_gbf_unknown_code_inside_span_removed :
    (∀ p ∈ gbfPatterns, hasMatch p ("<XY>".toList) = false) ∧
    gbfClean ("<TB>x<XY>y<Tb>".toList) = [] := by decide

/-- C9 (amended): the GBF cleaner removes only occurrences of the
enumerated patterns: any text in which no enumerated pattern matches —
in particular text whose bracketed codes are all outside the enumerated
set and outside any recognized paired span — is returned unchanged.
(An unknown code lying inside a recognized paired span is deleted together
with the span's content, which is what the counterexample exhibits.) -/
theorem C9_gbf_no_recognized_pattern_untouched (s : List Char)
    (h : ∀ p ∈ gbfPatterns, hasMatch p s = false) : gbfClean s = s :=
  foldl_gsub_of_no_match gbfPatterns s h

theorem C9_gbf_no_recognized_pattern_untouched_witness :
    (∀ p ∈ gbfPatterns, hasMatch p ("a<XY>b".toList) = false) ∧
    gbfClean ("a<XY>b".toList) = "a<XY>b".toList :=
  ⟨by decide, C9_gbf_no_recognized_pattern_untouched _ (by decide)⟩

/-- C4: the claim fails: with chapter length 3 and requested verses
`[5, 2]`, the maximum requested verse 5 exceeds the chapter's length, yet
`get_indicies` raises nothing and returns indices (the bound check reads
`tmp_verses[-1]`, the last entry, which is 2 here). -/
theorem C4_max_verse_unchecked_counterexample :
    getIndicies demoBook3 (.intP 1) (.listP [(5 : Int), 2]) 0 = .ok [6, 3] ∧
    (5 : Int) ∈ [(5 : Int), 2] ∧ (3 : Int) < 5 := by decide

/-- C4 (amended): for a single selected in-range chapter and a non-empty
explicit verse list, `get_indicies` raises `VerseOutOfRange` if and only if
the last entry of the verse list exceeds the chapter's length; entries
other than the last are never validated (the result depends only on the
last entry's comparison). -/
theorem C4_verse_bound_checks_last_entry_only (bk : Book) (c : Int)
    (vsL : List Int) (off : Int) (lastV : Int) (L : Nat)
    (_h1 : 1 ≤ c) (h2 : c ≤ (bk.numChapters : Int))
    (h3 : vsL.getLast? = some lastV)
    (h4 : pyIndex bk.chapterLengths (c - 1) = some L) :
    (getIndicies bk (.intP c) (.listP vsL) off = .error .verseRange ↔
      (L : Int) < lastV) := by
  show giLoop bk (some vsL) off [c] = .error .verseRange ↔ (L : Int) < lastV
  simp only [giLoop]
  rw [if_neg (by omega)]
  simp only [h3, h4]
  split_ifs with hgt
  · simp [hgt]
  · constructor
    · intro hh; simp at hh
    · intro hh; omega

theorem C4_verse_bound_checks_last_entry_only_witness :
    ¬ (getIndicies demoBook3 (.intP 1) (.listP [(5 : Int), 2]) 0 =
        .error .verseRange) := by
  have h := C4_verse_bound_checks_last_entry_only demoBook3 1 [(5 : Int), 2] 0 2 3
    (by decide) (by decide) (by decide) (by decide)
  intro hc
  exact absurd (h.mp hc) (by decide)

theorem oneTo_getLast (n : Nat) :
    (oneTo (n + 1)).getLast? = some ((n : Int) + 1) := by
  unfold oneTo
  rw [List.range_succ, List.map_append]
  simp

theorem pyIndex_neg_one (L : List Nat) (L0 : Nat) (h : L.getLast? = some L0) :
    pyIndex L (-1) = some L0 := by
  have hne : L ≠ [] := by intro e; subst e; simp at h
  have hlen : 1 ≤ L.length := List.length_pos.mpr hne
  unfold pyIndex
  rw [if_neg (by omega), if_pos (by omega)]
  simp only [neg_neg, Int.toNat_one]
  rw [← List.getLast?_eq_getElem?]
  exact h

theorem oneTo_map_shift (n : Nat) (a : Int) :
    (oneTo n).map (fun v => a + v - 1) =
      (List.range n).map (fun v : Nat => a + (v : Int)) := by
  unfold oneTo
  rw [List.map_map]
  apply List.map_congr_left
  intro v _
  simp only [Function.comp_apply]
  ring

theorem giLoop_none_flatten (bk : Book) (off : Int) :
    ∀ chs : List Int,
      (∀ c ∈ chs, c ≤ (bk.numChapters : Int) ∧ 1 ≤ chLen bk c) →
      giLoop bk none off chs = .ok ((chs.map (chapterBlock bk off)).flatten) := by
  intro chs
  induction chs with
  | nil => intro _; rfl
  | cons c cs ih =>
    intro h
    obtain ⟨h2, h3⟩ := h c (by simp)
    have hpi : pyIndex bk.chapterLengths (c - 1) = some (chLen bk c) := by
      unfold chLen at h3 ⊢
      cases hp : pyIndex bk.chapterLengths (c - 1) with
      | none => rw [hp] at h3; simp at h3
      | some L => simp
    obtain ⟨m, hm⟩ : ∃ m, chLen bk c = m + 1 := ⟨chLen bk c - 1, by omega⟩
    simp only [giLoop]
    rw [if_neg (by omega)]
    simp only [hpi, hm, oneTo_getLast]
    rw [if_neg (by push_cast; omega)]
    rw [ih (fun d hd => h d (by simp [hd]))]
    simp only [List.map_cons, List.flatten_cons]
    congr 1
    rw [oneTo_map_shift]
    unfold chapterBlock
    rw [hm]

/-- C10: the claim fails: a negative requested chapter is not always
"accepted without error" — on a one-chapter book, chapter `-1` makes
`chapter_lengths[chapter-1]` read index `-2`, which is out of Python's
negative-index range, so `get_indicies` raises `IndexError` even though
`-1` does not exceed `num_chapters`. -/
theorem C10_negative_chapter_counterexample :
    getIndicies demoBook5 (.intP (-1)) .noneP 0 = .error .indexErr ∧
    (-1 : Int) ≤ (demoBook5.numChapters : Int) := by decide

/-- C10 (amended): `get_indicies` validates chapters against the upper
bound only.  (a) With no verse filter it raises `ChapterOutOfRange` for a
single requested chapter iff that chapter exceeds `num_chapters`; (b)
chapter 0 is accepted and resolves through Python's negative indexing to
the last chapter's verse count, yielding that chapter block; (c) a negative
chapter whose `chapter-1` falls outside the negative-index range of
`chapter_lengths` raises `IndexError` (not `ChapterOutOfRange`). -/
theorem C10_upper_bound_only_and_negative_indexing (bk : Book) (off : Int) :
    (∀ c : Int,
      (getIndicies bk (.intP c) .noneP off = .error .chapterRange ↔
        (bk.numChapters : Int) < c)) ∧
    (∀ L0 : Nat, bk.chapterLengths.getLast? = some L0 → 1 ≤ L0 →
      chLen bk 0 = L0 ∧
      getIndicies bk (.intP 0) .noneP off = .ok (chapterBlock bk off 0)) ∧
    (∀ c : Int, c - 1 < -(bk.numChapters : Int) → c ≤ (bk.numChapters : Int) →
      getIndicies bk (.intP c) .noneP off = .error .indexErr) := by
  refine ⟨?_, ?_, ?_⟩
  · intro c
    show giLoop bk none off [c] = _ ↔ _
    simp only [giLoop]
    by_cases hc : c > (bk.numChapters : Int)
    · rw [if_pos hc]
      exact iff_of_true rfl (by omega)
    · rw [if_neg hc]
      refine iff_of_false ?_ (by omega)
      cases hpi : pyIndex bk.chapterLengths (c - 1) with
      | none => simp [hpi]
      | some L =>
        simp only [hpi]
        cases hL : (oneTo L).getLast? with
        | none => simp [hL]
        | some lastV =>
          simp only [hL]
          split_ifs with hgt
          · simp
          · simp
  · intro L0 hL0 h1
    have h01 : ((0 : Int) - 1) = -1 := by norm_num
    have hpi : pyIndex bk.chapterLengths ((0 : Int) - 1) = some L0 := by
      rw [h01]; exact pyIndex_neg_one _ _ hL0
    have hcl : chLen bk 0 = L0 := by unfold chLen; rw [hpi]; rfl
    refine ⟨hcl, ?_⟩
    have hmain := giLoop_none_flatten bk off [0]
      (by
        intro d hd
        simp at hd
        subst hd
        exact ⟨by positivity, by omega⟩)
    show giLoop bk none off [(0 : Int)] = _
    simpa using hmain
  · intro c hc1 hc2
    simp only [Book.numChapters] at hc1 hc2
    have hpi : pyIndex bk.chapterLengths (c - 1) = none := by
      unfold pyIndex
      rw [if_neg (by omega), if_neg (by omega)]
    show giLoop bk none off [c] = _
    simp only [giLoop]
    rw [if_neg (by simp only [Book.numChapters]; omega)]
    simp [hpi]

theorem C10_upper_bound_only_and_negative_indexing_witness :
    (getIndicies demoBook5 (.intP 2) .noneP 0 = .error .chapterRange ↔
      (demoBook5.numChapters : Int) < 2) ∧
    (chLen demoBook5 0 = 5 ∧
      getIndicies demoBook5 (.intP 0) .noneP 0 = .ok (chapterBlock demoBook5 0 0)) ∧
    chapterBlock demoBook5 0 0 = [1, 2, 3, 4, 5] ∧
    getIndicies demoBook5 (.intP (-2)) .noneP 0 = .error .indexErr :=
  ⟨(C10_upper_bound_only_and_negative_indexing demoBook5 0).1 2,
   (C10_upper_bound_only_and_negative_indexing demoBook5 0).2.1 5 (by decide)
     (by decide),
   by decide,
   (C10_upper_bound_only_and_negative_indexing demoBook5 0).2.2 (-2) (by decide)
     (by decide)⟩

/-- C5: a verse filter is honored exactly when one chapter is selected.
(i) With a single in-range chapter and an explicit verse list whose last
entry is within the chapter, `get_indicies` returns the index of exactly
each listed verse, in list order; (ii) with a chapter selection of any
other length, the result is identical to passing no verse filter at all;
(iii) in particular a multi-chapter in-range selection with any verse
filter expands to every verse of each selected chapter. -/
theorem C5_verse_filter_single_honored_multi_ignored (bk : Book) (off : Int) :
    (∀ (c : Int) (vsL : List Int) (lastV : Int) (L : Nat),
      1 ≤ c → c ≤ (bk.numChapters : Int) →
      vsL.getLast? = some lastV →
      pyIndex bk.chapterLengths (c - 1) = some L →
      lastV ≤ (L : Int) →
      getIndicies bk (.intP c) (.listP vsL) off =
        .ok (vsL.map
          (fun v => off + chapterOffset bk.chapterLengths (c - 1) + v - 1))) ∧
    (∀ (chs : List Int) (verses : PyParam),
      chs.length ≠ 1 →
      getIndicies bk (.listP chs) verses off =
        getIndicies bk (.listP chs) .noneP off) ∧
    (∀ (chs : List Int) (verses : PyParam),
      1 < chs.length →
      (∀ c ∈ chs, 1 ≤ c ∧ c ≤ (bk.numChapters : Int) ∧ 1 ≤ chLen bk c) →
      getIndicies bk (.listP chs) verses off =
        .ok ((chs.map (chapterBlock bk off)).flatten)) := by
  refine ⟨?_, ?_, ?_⟩
  · intro c vsL lastV L hc1 hc2 hl hpi hle
    show giLoop bk (some vsL) off [c] = _
    simp only [giLoop]
    rw [if_neg (by omega)]
    simp only [hl, hpi]
    rw [if_neg (by omega)]
    rw [List.append_nil]
  · intro chs verses hne
    simp only [getIndicies]
    rw [if_pos hne, if_pos hne]
  · intro chs verses hlen hin
    have h2 : chs.length ≠ 1 := by omega
    simp only [getIndicies]
    rw [if_pos h2]
    exact giLoop_none_flatten bk off chs (fun c hc => ⟨(hin c hc).2.1, (hin c hc).2.2⟩)

theorem C5_verse_filter_single_honored_multi_ignored_witness :
    (getIndicies demoBook2 (.intP 1) (.listP [(2 : Int), 1]) 0 =
      .ok ([(2 : Int), 1].map
        (fun v => 0 + chapterOffset demoBook2.chapterLengths ((1 : Int) - 1) + v - 1)) ∧
      [(2 : Int), 1].map
        (fun v => 0 + chapterOffset demoBook2.chapterLengths ((1 : Int) - 1) + v - 1) =
        [3, 2]) ∧
    (getIndicies demoBook2 (.listP [1, 2]) (.listP [(1 : Int)]) 0 =
      getIndicies demoBook2 (.listP [1, 2]) .noneP 0) ∧
    (getIndicies demoBook2 (.listP [1, 2]) (.listP [(1 : Int)]) 0 =
      .ok (([(1 : Int), 2].map (chapterBlock demoBook2 0)).flatten) ∧
      ([(1 : Int), 2].map (chapterBlock demoBook2 0)).flatten = [2, 3, 5, 6, 7]) :=
  ⟨⟨(C5_verse_filter_single_honored_multi_ignored demoBook2 0).1 1 [2, 1] 1 2
      (by decide) (by decide) (by decide) (by decide) (by decide), by decide⟩,
   (C5_verse_filter_single_honored_multi_ignored demoBook2 0).2.1 [1, 2]
     (.listP [1]) (by decide),
   ⟨(C5_verse_filter_single_honored_multi_ignored demoBook2 0).2.2 [1, 2]
      (.listP [1]) (by decide) (by decide), by decide⟩⟩

theorem textForIndexRaw_not_pnone (t : RawTestament) (i : Int)
    (e : Option PyEncoding) (v : PyVal) (e2 : Option PyEncoding)
    (h : textForIndexRaw t i e = .ok (v, e2)) : v ≠ .pnone := by
  unfold textForIndexRaw at h
  split at h
  · simp at h
    intro hh
    rw [hh] at h
    exact absurd h.1.symm (by simp)
  · split at h
    · exact absurd h (by simp)
    · dsimp only at h
      split at h
      · simp at h
        intro hh
        rw [hh] at h
        exact absurd h.1.symm (by simp)
      · simp at h
        intro hh
        rw [hh] at h
        exact absurd h.1.symm (by simp)

theorem processTestament_length (t : RawTestament) (cf : List Nat → List Nat)
    (clean : Bool) :
    ∀ (idxs : List Int) (enc : Option PyEncoding) (ys : List PyVal)
      (e2 : Option PyEncoding),
      processTestament t cf clean enc idxs = .ok (ys, e2) →
      ys.length = idxs.length := by
  intro idxs
  induction idxs with
  | nil =>
    intro enc ys e2 h
    simp only [processTestament] at h
    simp at h
    simp [h.1]
  | cons i rest ih =>
    intro enc ys e2 h
    simp only [processTestament] at h
    cases htf : textForIndexRaw t i enc with
    | error e => rw [htf] at h; exact absurd h (by simp)
    | ok ve =>
      obtain ⟨v, e1⟩ := ve
      rw [htf] at h
      dsimp only at h
      rw [if_neg (textForIndexRaw_not_pnone t i enc v e1 htf)] at h
      cases hcs : cleanStep cf clean v with
      | error e => rw [hcs] at h; exact absurd h (by simp)
      | ok item =>
        rw [hcs] at h
        cases hrec : processTestament t cf clean e1 rest with
        | error e => rw [hrec] at h; exact absurd h (by simp)
        | ok p =>
          obtain ⟨vs, e3⟩ := p
          rw [hrec] at h
          dsimp only at h
          simp at h
          rw [← h.1]
          simp [ih e1 vs e3 hrec]

/-- C1: the claim fails: `get_iter` does yield empty strings.  On a raw
module whose index files are empty, every resolved index fails the index
size check and resolves to `u''`, and `get_iter` yields each of them: the
output is `['', '']`, one empty string per resolved index (the two resolved
indices are 4 and 5), not a shortened sequence. -/
theorem C1_empty_verses_are_yielded_counterexample :
    getIterRaw demoRawModule id true .noneB .noneP .noneP =
      .ok [.pstr [], .pstr []] ∧
    refToIndicies demoRawModule.otBooks demoRawModule.ntBooks .noneB .noneP
      .noneP = .ok ([4, 5], []) := by decide

/-- C1 (amended): `get_iter` skips a fetched verse only when it `is None`,
and `_text_for_index` never returns `None` (first conjunct) — it returns
`u''`/`b''` for absent data instead.  Consequently nothing is ever skipped:
whenever `get_iter` completes, it has yielded exactly one item per resolved
linear index, so the output length always equals the number of resolved
indices — empty texts included. -/
theorem C1_get_iter_length_equals_resolved_indices :
    (∀ t i e v e2, textForIndexRaw t i e = .ok (v, e2) → v ≠ .pnone) ∧
    (∀ (m : RawModule) (cf : List Nat → List Nat) (clean : Bool)
       (books : PyBooks) (chapters verses : PyParam)
       (otR ntR : List Int) (ys : List PyVal),
      refToIndicies m.otBooks m.ntBooks books chapters verses = .ok (otR, ntR) →
      getIterRaw m cf clean books chapters verses = .ok ys →
      ys.length = otR.length + ntR.length) := by
  refine ⟨textForIndexRaw_not_pnone, ?_⟩
  intro m cf clean books chapters verses otR ntR ys href hget
  unfold getIterRaw at hget
  rw [href] at hget
  dsimp only at hget
  cases h1 : processTestament m.otT cf clean m.enc otR with
  | error e => rw [h1] at hget; exact absurd hget (by simp)
  | ok p1 =>
    obtain ⟨ys1, e1⟩ := p1
    rw [h1] at hget
    dsimp only at hget
    cases h2 : processTestament m.ntT cf clean e1 ntR with
    | error e => rw [h2] at hget; exact absurd hget (by simp)
    | ok p2 =>
      obtain ⟨ys2, e2⟩ := p2
      rw [h2] at hget
      simp at hget
      rw [← hget]
      simp [List.length_append, processTestament_length m.otT cf clean otR m.enc ys1 e1 h1,
        processTestament_length m.ntT cf clean ntR e1 ys2 e2 h2]

theorem C1_get_iter_length_equals_resolved_indices_witness :
    (PyVal.pstr [] ≠ PyVal.pnone) ∧
    ([PyVal.pstr [], PyVal.pstr []] : List PyVal).length =
      [(4 : Int), 5].length + ([] : List Int).length :=
  ⟨C1_get_iter_length_equals_resolved_indices.1 demoRawModule.otT 4 none
     (.pstr []) none (by decide),
   C1_get_iter_length_equals_resolved_indices.2 demoRawModule id true .noneB
     .noneP .noneP [4, 5] [] [.pstr [], .pstr []] (by decide) (by decide)⟩

theorem sum_take_getD (L : List Nat) (c : Nat) (hc : c < L.length) :
    (L.take (c + 1)).sum = (L.take c).sum + L.getD c 0 := by
  rw [List.take_succ, List.sum_append, List.getElem?_eq_getElem hc]
  simp [List.getD_eq_getElem?_getD, List.getElem?_eq_getElem hc]

theorem sum_take_le (L : List Nat) (k : Nat) : (L.take k).sum ≤ L.sum := by
  conv_rhs => rw [← List.take_append_drop k L]
  rw [List.sum_append]
  omega

theorem sum_take_mono (L : List Nat) (k m : Nat) (h : k ≤ m) :
    (L.take k).sum ≤ (L.take m).sum := by
  have h1 : (L.take m).take k = L.take k := by
    rw [List.take_take, min_eq_left h]
  calc (L.take k).sum = ((L.take m).take k).sum := by rw [h1]
    _ ≤ (L.take m).sum := sum_take_le _ _

theorem chLen_natCast (bk : Book) (c : Nat) (hc : c < bk.chapterLengths.length) :
    chLen bk ((c : Int) + 1) = bk.chapterLengths.getD c 0 := by
  unfold chLen pyIndex
  have h1 : ((c : Int) + 1 - 1) = (c : Int) := by ring
  rw [h1, if_pos (by positivity)]
  simp [Int.toNat_natCast, List.getElem?_eq_getElem hc, List.getD_eq_getElem?_getD]

theorem chapterBlock_mem_bounds (bk : Book) (off : Int) (c : Nat)
    (hc : c < bk.chapterLengths.length) (x : Int)
    (hx : x ∈ chapterBlock bk off ((c : Int) + 1)) :
    off + ((bk.chapterLengths.take c).sum : Int) + c + 2 ≤ x ∧
    x ≤ off + ((bk.chapterLengths.take (c + 1)).sum : Int) + c + 1 := by
  unfold chapterBlock at hx
  simp only [List.mem_map, List.mem_range] at hx
  obtain ⟨v, hv, rfl⟩ := hx
  have h1 : ((c : Int) + 1 - 1) = (c : Int) := by ring
  rw [h1, chapterOffset_natCast]
  rw [chLen_natCast bk c hc] at hv
  have h2 := sum_take_getD bk.chapterLengths c hc
  omega

theorem chapterBlock_pairwise (bk : Book) (off : Int) (ch : Int) :
    (chapterBlock bk off ch).Pairwise (· < ·) := by
  unfold chapterBlock
  rw [List.pairwise_map]
  exact (List.pairwise_lt_range _).imp (fun h => by omega)

theorem bookFull_mem_bounds (bk : Book) (off : Int) (x : Int)
    (hx : x ∈ bookFull bk off) :
    off + 2 ≤ x ∧ x ≤ off + (bk.size : Int) - 1 := by
  unfold bookFull at hx
  rw [List.mem_flatten] at hx
  obtain ⟨l, hl, hxl⟩ := hx
  rw [List.mem_map] at hl
  obtain ⟨c, hc, rfl⟩ := hl
  rw [List.mem_range] at hc
  have hb := chapterBlock_mem_bounds bk off c hc x hxl
  have h1 := sum_take_le bk.chapterLengths (c + 1)
  have hsize : (bk.size : Int) =
      (bk.chapterLengths.sum : Int) + bk.chapterLengths.length + 1 := by
    simp [Book.size]
  have hnum : bk.numChapters = bk.chapterLengths.length := rfl
  rw [hnum] at hc
  omega

theorem bookFull_pairwise (bk : Book) (off : Int) :
    (bookFull bk off).Pairwise (· < ·) := by
  unfold bookFull
  rw [List.pairwise_flatten]
  refine ⟨?_, ?_⟩
  · intro l hl
    rw [List.mem_map] at hl
    obtain ⟨c, _, rfl⟩ := hl
    exact chapterBlock_pairwise bk off _
  · rw [List.pairwise_map]
    refine (List.pairwise_lt_range _).imp ?_
    intro c1 c2 hlt x hx y hy
    by_cases hc2 : c2 < bk.numChapters
    · have hc1 : c1 < bk.chapterLengths.length := by
        have : bk.numChapters = bk.chapterLengths.length := rfl
        omega
      have hb1 := chapterBlock_mem_bounds bk off c1 hc1 x hx
      have hb2 := chapterBlock_mem_bounds bk off c2 (by
        have : bk.numChapters = bk.chapterLengths.length := rfl
        omega) y hy
      have hmono := sum_take_mono bk.chapterLengths (c1 + 1) c2 (by omega)
      omega
    · exfalso
      have hcl : chLen bk ((c2 : Int) + 1) = 0 := by
        unfold chLen pyIndex
        have h1 : ((c2 : Int) + 1 - 1) = (c2 : Int) := by ring
        rw [h1, if_pos (by positivity)]
        simp only [Int.toNat_natCast]
        rw [List.getElem?_eq_none (by
          have : bk.numChapters = bk.chapterLengths.length := rfl
          omega)]
        rfl
      unfold chapterBlock at hy
      rw [hcl] at hy
      simp at hy

theorem booksFull_mem_lower :
    ∀ (bs : List Book) (s : Int) (x : Int), x ∈ booksFull bs s → s + 2 ≤ x := by
  intro bs
  induction bs with
  | nil => intro s x hx; simp [booksFull] at hx
  | cons b bs ih =>
    intro s x hx
    simp only [booksFull, List.mem_append] at hx
    rcases hx with hx | hx
    · exact (bookFull_mem_bounds b s x hx).1
    · have := ih (s + (b.size : Int)) x hx
      have hs : (0 : Int) ≤ (b.size : Int) := by positivity
      omega

theorem booksFull_pairwise :
    ∀ (bs : List Book) (s : Int), (booksFull bs s).Pairwise (· < ·) := by
  intro bs
  induction bs with
  | nil => intro s; simp [booksFull]
  | cons b bs ih =>
    intro s
    simp only [booksFull]
    rw [List.pairwise_append]
    refine ⟨bookFull_pairwise b s, ih _, ?_⟩
    intro x hx y hy
    have h1 := (bookFull_mem_bounds b s x hx).2
    have h2 := booksFull_mem_lower bs _ y hy
    omega

theorem getIndicies_all (bk : Book) (off : Int)
    (hpos : ∀ l ∈ bk.chapterLengths, 1 ≤ l) :
    getIndicies bk .noneP .noneP off = .ok (bookFull bk off) := by
  have hloop := giLoop_none_flatten bk off (oneTo bk.numChapters) ?_
  · simp only [getIndicies, ite_self]
    rw [hloop]
    unfold bookFull oneTo
    rw [List.map_map]
    rfl
  · intro c hc
    unfold oneTo at hc
    simp only [List.mem_map, List.mem_range] at hc
    obtain ⟨i, hi, rfl⟩ := hc
    have hil : i < bk.chapterLengths.length := hi
    refine ⟨by omega, ?_⟩
    rw [chLen_natCast bk i hil]
    rw [List.getD_eq_getElem _ _ hil]
    exact hpos _ (List.getElem_mem hil)

theorem find?_unique_key (nm : String) (v : Int) :
    ∀ l : List (String × Int), (l.map (·.1)).Nodup → (nm, v) ∈ l →
      l.find? (fun p => p.1 == nm) = some (nm, v) := by
  intro l
  induction l with
  | nil => intro _ h; simp at h
  | cons p l ih =>
    intro hnodup hmem
    simp only [List.map_cons, List.nodup_cons] at hnodup
    rcases List.mem_cons.mp hmem with heq | hmem2
    · rw [← heq]
      simp [List.find?_cons_of_pos]
    · have hne : p.1 ≠ nm := by
        intro he
        exact hnodup.1 (by
          rw [he]
          exact List.mem_map.mpr ⟨(nm, v), hmem2, rfl⟩)
      rw [List.find?_cons_of_neg _ (by simpa using hne)]
      exact ih hnodup.2 hmem2

theorem bookOffset_of_mem (otB ntB : List Book) (nm : String) (v : Int)
    (hnodup : ((bookOffsetTable otB ntB).map (·.1)).Nodup)
    (hmem : (nm, v) ∈ bookOffsetTable otB ntB) :
    bookOffset otB ntB nm = some v := by
  unfold bookOffset
  rw [find?_unique_key nm v (bookOffsetTable otB ntB).reverse
    (by rw [List.map_reverse]; exact List.nodup_reverse.mpr hnodup)
    (List.mem_reverse.mpr hmem)]
  rfl

theorem offsetsFor_keys :
    ∀ (bs : List Book) (s : Int), (offsetsFor bs s).map (·.1) = bs.map (·.name) := by
  intro bs
  induction bs with
  | nil => intro s; rfl
  | cons b bs ih => intro s; simp only [offsetsFor, List.map_cons, ih]

theorem offsetsOK_of (otB ntB : List Book)
    (hnodup : ((bookOffsetTable otB ntB).map (·.1)).Nodup) :
    ∀ (bs : List Book) (s : Int),
      (∀ p ∈ offsetsFor bs s, p ∈ bookOffsetTable otB ntB) →
      OffsetsOK otB ntB bs s := by
  intro bs
  induction bs with
  | nil => intro s _; trivial
  | cons b bs ih =>
    intro s hsub
    refine ⟨?_, ?_⟩
    · exact bookOffset_of_mem otB ntB b.name s hnodup
        (hsub (b.name, s) (by simp [offsetsFor]))
    · exact ih _ (fun p hp => hsub p (by simp [offsetsFor, hp]))

theorem rtiLoop_append_ok (otB ntB : List Book) (ch vs : PyParam) :
    ∀ (ns1 ns2 : List String) (o1 n1 o2 n2 : List Int),
      rtiLoop otB ntB ch vs ns1 = .ok (o1, n1) →
      rtiLoop otB ntB ch vs ns2 = .ok (o2, n2) →
      rtiLoop otB ntB ch vs (ns1 ++ ns2) = .ok (o1 ++ o2, n1 ++ n2) := by
  intro ns1
  induction ns1 with
  | nil =>
    intro ns2 o1 n1 o2 n2 h1 h2
    simp only [rtiLoop] at h1
    simp only [Except.ok.injEq, Prod.mk.injEq] at h1
    rw [← h1.1, ← h1.2]
    simpa using h2
  | cons nm ns ih =>
    intro ns2 o1 n1 o2 n2 h1 h2
    simp only [List.cons_append, rtiLoop] at h1 ⊢
    cases hfb : findBook otB ntB nm with
    | none => rw [hfb] at h1; exact absurd h1 (by simp)
    | some tb =>
      obtain ⟨t, bk⟩ := tb
      rw [hfb] at h1
      dsimp only at h1 ⊢
      cases hbo : bookOffset otB ntB bk.name with
      | none => rw [hbo] at h1; exact absurd h1 (by simp)
      | some off =>
        rw [hbo] at h1
        dsimp only at h1 ⊢
        cases hgi : getIndicies bk ch vs off with
        | error e => rw [hgi] at h1; exact absurd h1 (by simp)
        | ok idxs =>
          rw [hgi] at h1
          dsimp only at h1 ⊢
          cases hrec : rtiLoop otB ntB ch vs ns with
          | error e => rw [hrec] at h1; exact absurd h1 (by simp)
          | ok p =>
            obtain ⟨o, n⟩ := p
            rw [hrec] at h1
            dsimp only at h1
            simp only [List.append_eq]
            rw [ih ns2 o n o2 n2 hrec h2]
            dsimp only
            cases t with
            | ot =>
              simp only [Except.ok.injEq, Prod.mk.injEq] at h1 ⊢
              refine ⟨?_, ?_⟩
              · rw [← h1.1, List.append_assoc]
              · rw [← h1.2]
            | nt =>
              simp only [Except.ok.injEq, Prod.mk.injEq] at h1 ⊢
              refine ⟨?_, ?_⟩
              · rw [← h1.1]
              · rw [← h1.2, List.append_assoc]

theorem rtiLoop_ot (otB ntB : List Book) :
    ∀ (bs : List Book) (s : Int),
      (∀ b ∈ bs, findBook otB ntB b.name = some (.ot, b)) →
      (∀ b ∈ bs, ∀ l ∈ b.chapterLengths, 1 ≤ l) →
      OffsetsOK otB ntB bs s →
      rtiLoop otB ntB .noneP .noneP (bs.map (·.name)) = .ok (booksFull bs s, []) := by
  intro bs
  induction bs with
  | nil => intro s _ _ _; rfl
  | cons b bs ih =>
    intro s hfind hpos hoff
    simp only [List.map_cons, rtiLoop]
    rw [hfind b (by simp)]
    dsimp only
    rw [hoff.1]
    dsimp only
    rw [getIndicies_all b s (hpos b (by simp))]
    dsimp only
    rw [ih (s + (b.size : Int)) (fun d hd => hfind d (by simp [hd]))
      (fun d hd => hpos d (by simp [hd])) hoff.2]
    rfl

theorem rtiLoop_nt (otB ntB : List Book) :
    ∀ (bs : List Book) (s : Int),
      (∀ b ∈ bs, findBook otB ntB b.name = some (.nt, b)) →
      (∀ b ∈ bs, ∀ l ∈ b.chapterLengths, 1 ≤ l) →
      OffsetsOK otB ntB bs s →
      rtiLoop otB ntB .noneP .noneP (bs.map (·.name)) = .ok ([], booksFull bs s) := by
  intro bs
  induction bs with
  | nil => intro s _ _ _; rfl
  | cons b bs ih =>
    intro s hfind hpos hoff
    simp only [List.map_cons, rtiLoop]
    rw [hfind b (by simp)]
    dsimp only
    rw [hoff.1]
    dsimp only
    rw [getIndicies_all b s (hpos b (by simp))]
    dsimp only
    rw [ih (s + (b.size : Int)) (fun d hd => hfind d (by simp [hd]))
      (fun d hd => hpos d (by simp [hd])) hoff.2]
    rfl

/-- C7: for any canon data satisfying the spec's canon invariants (unique
book names so that each book's own name resolves to itself, and positive
per-chapter verse counts), resolving every book, chapter and verse with
`ref_to_indicies` succeeds and yields, for each testament, a strictly
increasing (hence duplicate-free) sequence of linear indices. -/
theorem C7_full_resolution_strictly_increasing (otB ntB : List Book)
    (h : CanonOK otB ntB) :
    refToIndicies otB ntB .noneB .noneP .noneP =
      .ok (booksFull otB 2, booksFull ntB 2) ∧
    (booksFull otB 2).Pairwise (· < ·) ∧ (booksFull ntB 2).Pairwise (· < ·) := by
  obtain ⟨hnod, hpos, hot, hnt⟩ := h
  have hkeys : ((bookOffsetTable otB ntB).map (·.1)).Nodup := by
    unfold bookOffsetTable
    rw [List.map_append, offsetsFor_keys, offsetsFor_keys]
    rw [← List.map_append]
    exact hnod
  have hoffOt : OffsetsOK otB ntB otB 2 :=
    offsetsOK_of otB ntB hkeys otB 2
      (fun p hp => List.mem_append_left _ hp)
  have hoffNt : OffsetsOK otB ntB ntB 2 :=
    offsetsOK_of otB ntB hkeys ntB 2
      (fun p hp => List.mem_append_right _ hp)
  have h1 := rtiLoop_ot otB ntB otB 2 (fun b hb => hot b hb)
    (fun b hb => hpos b (List.mem_append_left _ hb)) hoffOt
  have h2 := rtiLoop_nt otB ntB ntB 2 (fun b hb => hnt b hb)
    (fun b hb => hpos b (List.mem_append_right _ hb)) hoffNt
  refine ⟨?_, booksFull_pairwise otB 2, booksFull_pairwise ntB 2⟩
  unfold refToIndicies
  have h3 := rtiLoop_append_ok otB ntB .noneP .noneP (otB.map (·.name))
    (ntB.map (·.name)) (booksFull otB 2) [] [] (booksFull ntB 2) h1 h2
  simpa using h3

theorem C7_full_resolution_strictly_increasing_witness :
    CanonOK [demoBookG] [demoBook2] ∧
    (refToIndicies [demoBookG] [demoBook2] .noneB .noneP .noneP =
      .ok (booksFull [demoBookG] 2, booksFull [demoBook2] 2) ∧
      (booksFull [demoBookG] 2).Pairwise (· < ·) ∧
      (booksFull [demoBook2] 2).Pairwise (· < ·)) ∧
    booksFull [demoBookG] 2 = [4, 5] ∧
    booksFull [demoBook2] 2 = [4, 5, 7, 8, 9] :=
  ⟨by unfold CanonOK; decide,
   C7_full_resolution_strictly_increasing [demoBookG] [demoBook2]
     (by unfold CanonOK; decide),
   by decide, by decide⟩

end Pysword
